import Mathlib

/-!
Verification of the water-quality analysis pipeline
(`processing/tasks.py`, `processing/services/ml_processor.py`,
`api/models/analysis_request.py`) against its specification.

The embedding is shallow: Python dates become `Int` day numbers, Django
rows become Lean structures, NumPy float arrays become lists of symbolic
IEEE-style values (`FloatVal`), and the opaque external collaborators
(Earth Engine, Google Drive, the pickled regression model, the map
renderer) become explicit oracle parameters.
-/

set_option autoImplicit false

namespace WaterQuality

/-! ## Symbolic IEEE-style numeric values

NumPy float arithmetic in `ml_processor.process_chunk` can produce `nan`
and `±inf`; we track those symbolically over exact rationals. -/

/-- A NumPy float value: a finite rational, `nan`, `+inf` or `-inf`.
(Signed zero is not modelled; the code never distinguishes `-0.0`.) -/
inductive FloatVal where
  | fin (q : ℚ)
  | nan
  | inf
  | ninf
  deriving DecidableEq

namespace FloatVal

/-- IEEE addition on symbolic values. -/
def fadd : FloatVal → FloatVal → FloatVal
  | nan, _ => nan
  | _, nan => nan
  | inf, ninf => nan
  | ninf, inf => nan
  | inf, _ => inf
  | _, inf => inf
  | ninf, _ => ninf
  | _, ninf => ninf
  | fin a, fin b => fin (a + b)

/-- IEEE subtraction on symbolic values. -/
def fsub : FloatVal → FloatVal → FloatVal
  | nan, _ => nan
  | _, nan => nan
  | inf, inf => nan
  | ninf, ninf => nan
  | inf, _ => inf
  | ninf, _ => ninf
  | _, inf => ninf
  | _, ninf => inf
  | fin a, fin b => fin (a - b)

/-- IEEE multiplication on symbolic values. -/
def fmul : FloatVal → FloatVal → FloatVal
  | nan, _ => nan
  | _, nan => nan
  | inf, inf => inf
  | inf, ninf => ninf
  | ninf, inf => ninf
  | ninf, ninf => inf
  | inf, fin b => if b = 0 then nan else if 0 < b then inf else ninf
  | fin a, inf => if a = 0 then nan else if 0 < a then inf else ninf
  | ninf, fin b => if b = 0 then nan else if 0 < b then ninf else inf
  | fin a, ninf => if a = 0 then nan else if 0 < a then ninf else inf
  | fin a, fin b => fin (a * b)

/-- IEEE division on symbolic values: finite `a / 0` is `±inf` (or `nan`
for `0 / 0`), matching NumPy under `errstate(divide=..., invalid=...)`. -/
def fdiv : FloatVal → FloatVal → FloatVal
  | nan, _ => nan
  | _, nan => nan
  | inf, inf => nan
  | inf, ninf => nan
  | ninf, inf => nan
  | ninf, ninf => nan
  | inf, fin b => if 0 ≤ b then inf else ninf
  | ninf, fin b => if 0 ≤ b then ninf else inf
  | fin _, inf => fin 0
  | fin _, ninf => fin 0
  | fin a, fin b =>
    if b = 0 then
      if a = 0 then nan else if 0 < a then inf else ninf
    else fin (a / b)

/-- NumPy elementwise `arr != 0`: true for `nan` and for `±inf`. -/
def neZero : FloatVal → Bool
  | fin q => decide (q ≠ 0)
  | nan => true
  | inf => true
  | ninf => true

/-- NumPy elementwise `arr > c` against a finite constant: `nan > c` is
false, `+inf > c` is true, `-inf > c` is false. -/
def fgt (v : FloatVal) (c : ℚ) : Bool
  := match v with
  | fin q => decide (c < q)
  | nan => false
  | inf => true
  | ninf => false

/-- Largest finite `float32` value, `(2^24 - 1) * 2^104`, which
`np.nan_to_num` substitutes for `+inf` on a float32 array. -/
def f32max : ℚ := (2 ^ 24 - 1) * 2 ^ 104

/-- `np.nan_to_num` with default arguments on a float32 array:
`nan ↦ 0`, `+inf ↦ float32 max`, `-inf ↦ -(float32 max)`. -/
def nanToNum : FloatVal → FloatVal
  | fin q => fin q
  | nan => fin 0
  | inf => fin f32max
  | ninf => fin (- f32max)

/-- `v` is a finite value (neither `nan` nor `±inf`). -/
def isFin : FloatVal → Bool
  | fin _ => true
  | _ => false

end FloatVal

/-! ## `WaterQualityPredictor.process_chunk` (ml_processor.py lines 69-154) -/

open FloatVal

/-- The six Sentinel-2 reflectance values of one pixel, as unpacked by
`b2, b3, b4, b5, b8, b11 = bands_chunk[0:6]`. -/
structure Pixel where
  b2 : FloatVal
  b3 : FloatVal
  b4 : FloatVal
  b5 : FloatVal
  b8 : FloatVal
  b11 : FloatVal
  deriving DecidableEq

/-- All six band values of the pixel are finite. -/
def Pixel.allFin (p : Pixel) : Bool :=
  isFin p.b2 && isFin p.b3 && isFin p.b4 && isFin p.b5 &&
    isFin p.b8 && isFin p.b11

/-- `mndwi = np.where((b3 + b11) != 0, (b3 - b11) / (b3 + b11), 0)`
followed by the in-place `np.nan_to_num`. -/
def mndwi (p : Pixel) : FloatVal :=
  nanToNum
    (if neZero (fadd p.b3 p.b11) then fdiv (fsub p.b3 p.b11) (fadd p.b3 p.b11)
     else fin 0)

/-- `ndci = np.where((b5 + b4) != 0, (b5 - b4) / (b5 + b4), 0)` plus
`np.nan_to_num`. -/
def ndci (p : Pixel) : FloatVal :=
  nanToNum
    (if neZero (fadd p.b5 p.b4) then fdiv (fsub p.b5 p.b4) (fadd p.b5 p.b4)
     else fin 0)

/-- `ndvi = np.where((b8 + b4) != 0, (b8 - b4) / (b8 + b4), 0)` plus
`np.nan_to_num`. -/
def ndvi (p : Pixel) : FloatVal :=
  nanToNum
    (if neZero (fadd p.b8 p.b4) then fdiv (fsub p.b8 p.b4) (fadd p.b8 p.b4)
     else fin 0)

/-- `fai = b8 - (b4 + (b11 - b4) * (842 - 665) / (1610 - 665))` plus
`np.nan_to_num`; the only division is by the constant `945`. -/
def fai (p : Pixel) : FloatVal :=
  nanToNum
    (fsub p.b8
      (fadd p.b4 (fdiv (fmul (fsub p.b11 p.b4) (fin 177)) (fin 945))))

/-- `b3_b2_ratio = np.where((b2 != 0) & (b3 != 0), b3 / b2, 0)` plus
`np.nan_to_num`. -/
def ratioB3B2 (p : Pixel) : FloatVal :=
  nanToNum (if neZero p.b2 && neZero p.b3 then fdiv p.b3 p.b2 else fin 0)

/-- `b4_b3_ratio = np.where((b3 != 0) & (b4 != 0), b4 / b3, 0)` plus
`np.nan_to_num`. -/
def ratioB4B3 (p : Pixel) : FloatVal :=
  nanToNum (if neZero p.b3 && neZero p.b4 then fdiv p.b4 p.b3 else fin 0)

/-- `b5_b4_ratio = np.where((b4 != 0) & (b5 != 0), b5 / b4, 0)` plus
`np.nan_to_num`. -/
def ratioB5B4 (p : Pixel) : FloatVal :=
  nanToNum (if neZero p.b4 && neZero p.b5 then fdiv p.b5 p.b4 else fin 0)

/-- The water mask `mndwi > 0.3`, computed after `np.nan_to_num`. -/
def waterMask (p : Pixel) : Bool := fgt (mndwi p) (3 / 10)

/-- One row of the feature DataFrame, in the exact training order
`feature_columns = band_columns ++ index_columns ++ temporal_columns`:
`B2 B3 B4 B5 B8 B11 NDCI NDVI FAI MNDWI B3_B2_ratio B4_B3_ratio
B5_B4_ratio Month Season`. -/
def featureRow (p : Pixel) (month season : ℚ) : List FloatVal :=
  [p.b2, p.b3, p.b4, p.b5, p.b8, p.b11,
   ndci p, ndvi p, fai p, mndwi p,
   ratioB3B2 p, ratioB4B3 p, ratioB5B4 p,
   fin month, fin season]

/-- `process_chunk`: per pixel, water pixels receive the model prediction
on the 15-feature row (scaler+model are one opaque `predict` oracle),
non-water pixels the no-data sentinel `-9999`. The batch
`model.predict(scaled_features)` of the source is row-wise, so it is
embedded pixel-by-pixel; the `len(valid_features) == 0` early return of
the source coincides with the map over an all-masked-out chunk. -/
def process_chunk (predict : List FloatVal → FloatVal)
    (month season : ℚ) (chunk : List Pixel) : List FloatVal :=
  chunk.map fun p =>
    if waterMask p then predict (featureRow p month season) else fin (-9999)

/-! ## `WaterQualityPredictor.process_image` (ml_processor.py lines 156-223) -/

/-- `season = ((month + 2) // 3) % 4 + 1` (ml_processor.py line 182). -/
def season_of_month (m : ℕ) : ℕ := ((m + 2) / 3) % 4 + 1

/-- The formula the specification states for the season bucket:
`((month - 1) // 3) + 1`. -/
def seasonSpecFormula (m : ℕ) : ℕ := (m - 1) / 3 + 1

/-- One window of the chunk loop: `Window(x, y, x_end - x, y_end - y)`
with `y_end = min(y + chunk, height)`, `x_end = min(x + chunk, width)`. -/
structure Win where
  y : ℕ
  x : ℕ
  yEnd : ℕ
  xEnd : ℕ
  deriving DecidableEq

/-- Pixel count of a window region of the output array. -/
def Win.size (w : Win) : ℕ := (w.yEnd - w.y) * (w.xEnd - w.x)

/-- `range(0, n, c)`: the chunk start offsets along one axis. -/
def chunkStarts (n c : ℕ) : List ℕ :=
  (List.range ((n + c - 1) / c)).map (· * c)

/-- The windows visited by the nested
`for y in range(0, height, chunk): for x in range(0, width, chunk)` loop,
in loop order. -/
def imageWindows (height width chunk : ℕ) : List Win :=
  (chunkStarts height chunk).flatMap fun y =>
    (chunkStarts width chunk).map fun x =>
      ⟨y, x, min (y + chunk) height, min (x + chunk) width⟩

/-- The window loop of `process_image`: each window is processed inside
`try`; on an exception (`chunkFails` oracle) the window region keeps the
`np.full(..., -9999)` pre-fill and the loop executes `continue`. `read`
is the windowed `src.read`. -/
def process_windows (predict : List FloatVal → FloatVal)
    (read : Win → List Pixel) (chunkFails : Win → Bool) (month : ℕ) :
    List Win → List (Win × List FloatVal)
  | [] => []
  | w :: rest =>
    let res :=
      if chunkFails w then List.replicate w.size (fin (-9999))
      else
        process_chunk predict (month : ℚ) ((season_of_month month : ℕ) : ℚ)
          (read w)
    (w, res) :: process_windows predict read chunkFails month rest

/-- `process_image` on an open raster of the given size: the month comes
from the `DATE_ACQUIRED` tag, the season from `season_of_month`, and the
raster is processed window by window with chunk size 500. The result maps
each window to the contents it contributes to the output raster. -/
def process_image (predict : List FloatVal → FloatVal)
    (read : Win → List Pixel) (chunkFails : Win → Bool)
    (month height width : ℕ) : List (Win × List FloatVal) :=
  process_windows predict read chunkFails month (imageWindows height width 500)

/-! ## Data model (api/models, api/enums) -/

/-- `AnalysisRequestStatusEnum` (analysis_request_status_enum.py). -/
inductive Status where
  | queued
  | downloadingImages
  | processingImages
  | cancelled
  | failed
  | completed
  deriving DecidableEq

/-- One `MachineLearningModel` row: bound to one reservoir and one
parameter (the model/scaler blobs are opaque and not needed here). -/
structure MLModel where
  id : ℕ
  reservoir : ℕ
  parameter : ℕ
  deriving DecidableEq

/-- One `UnprocessedSatelliteImage` row: the shared per-reservoir image
cache. `imageId` stands for the opaque `image_file` bytes. -/
structure SatImage where
  imageId : ℕ
  reservoir : ℕ
  imageDate : ℤ
  cloudPercentage : ℚ
  deriving DecidableEq

/-- One `AnalysisGroup` row (the uuid `identifier_code` is opaque). -/
structure AnalysisGroupRec where
  reservoir : ℕ
  startDate : ℤ
  endDate : ℤ
  deriving DecidableEq

/-- One `Analysis` row, pointing at its group by position in the groups
table. -/
structure AnalysisRec where
  groupIdx : ℕ
  analysisDate : ℤ
  cloudPercentage : ℚ
  deriving DecidableEq

/-- One `AnalysisRequest` row (analysis_request.py lines 8-29). Its
fields are exactly: the lazily-set `analysis_group` foreign key, the
status, the date range, and the `properties` JSON whose only
pipeline-relevant entry is `model_ids`. There is no error field. -/
structure RequestRec where
  id : ℕ
  status : Status
  startDate : ℤ
  endDate : ℤ
  modelIds : List ℕ
  groupIdx : Option ℕ
  deriving DecidableEq

/-- The persistent store the pipeline reads and mutates. -/
structure DB where
  requests : List RequestRec
  mlModels : List MLModel
  images : List SatImage
  groups : List AnalysisGroupRec
  analyses : List AnalysisRec
  deriving DecidableEq

/-- Earth Engine export-task states as compared by
`wait_for_export_tasks` (tasks.py lines 61-68). -/
inductive TaskState where
  | ready
  | running
  | completed
  | failed
  | cancelled
  deriving DecidableEq

/-- The exceptions the pipeline raises, in terms of the source location that raises them.
`exportTask t st` is the `Exception(f"Task {id} {state}")` of tasks.py
line 64, carrying the job id and its terminal state. -/
inductive PipeErr where
  | requestNotFound
  | multipleReservoirs
  | duplicateParameters (ps : List ℕ)
  | noModels
  | taskNotFound (taskId : ℕ)
  | exportTask (taskId : ℕ) (st : TaskState)
  | exportTimeout
  | dateParse (fileId : ℕ)
  | imageProcessing (date : ℤ)
  deriving DecidableEq

/-- A file listed by `DriveService.download_folder_contents`: `fileId`
stands for the opaque content and name, `parsedDate` is the result the
strict `YYYY-MM-DD` regex of `extract_date_from_filename` would give on
its name (`none` when the name has no date substring). -/
structure DriveFile where
  fileId : ℕ
  parsedDate : Option ℤ
  cloudPercentage : ℚ
  deriving DecidableEq

/-- The opaque external collaborators of one pipeline execution: the
export jobs Earth Engine creates, the job status it reports at each poll
iteration, the files Drive returns, and whether
`predictor.process_image` / `MapGenerator` raise on a given image. -/
structure PipeEnv where
  tasks : List ℕ
  statusAt : ℕ → ℕ → Option TaskState
  files : List DriveFile
  procFails : ℕ → SatImage → Bool
  mapFails : ℕ → SatImage → Bool

/-! ## `wait_for_export_tasks` (tasks.py lines 24-75) -/

/-- Result of one pass of the inner `for task_info in tasks_info` loop. -/
inductive PollOutcome where
  | abortNotFound (taskId : ℕ)
  | abortTerminal (taskId : ℕ) (st : TaskState)
  | pending
  | done
  deriving DecidableEq

/-- One pass over the task list: a missing task raises, a
`FAILED`/`CANCELLED` task raises naming its id and state, any other
non-`COMPLETED` state clears `all_completed` and breaks. -/
def poll_once (status : ℕ → Option TaskState) : List ℕ → PollOutcome
  | [] => .done
  | tid :: rest =>
    match status tid with
    | none => .abortNotFound tid
    | some st =>
      if st = .failed ∨ st = .cancelled then .abortTerminal tid st
      else if st = .completed then poll_once status rest
      else .pending

/-- The `while True` poll loop, `n` counting completed sleep intervals so
that elapsed time is `n * checkInterval`. The explicit fuel only bounds
the recursion; for `checkInterval ≥ 1` the timeout test fires before the
fuel (set by `wait_for_export_tasks` below) can run out, and running out
returns the same timeout error. -/
def wait_loop (statusAt : ℕ → ℕ → Option TaskState) (taskIds : List ℕ)
    (maxWait checkInterval : ℕ) : ℕ → ℕ → Except PipeErr Unit
  | _, 0 => .error .exportTimeout
  | n, fuel + 1 =>
    if maxWait < n * checkInterval then .error .exportTimeout
    else
      match poll_once (statusAt n) taskIds with
      | .abortNotFound t => .error (.taskNotFound t)
      | .abortTerminal t st => .error (.exportTask t st)
      | .done => .ok ()
      | .pending => wait_loop statusAt taskIds maxWait checkInterval (n + 1) fuel

/-- `wait_for_export_tasks` with its default `max_wait_time=6000000`,
`check_interval=30` (tasks.py line 24). -/
def wait_for_export_tasks (statusAt : ℕ → ℕ → Option TaskState)
    (taskIds : List ℕ) (maxWait checkInterval : ℕ) : Except PipeErr Unit :=
  wait_loop statusAt taskIds maxWait checkInterval 0 (maxWait / checkInterval + 2)

/-! ## `download_new_images` (tasks.py lines 218-256) -/

/-- The save loop of `download_new_images`: each downloaded file has its
date parsed (a file without a parsable date raises `ValueError`, keeping
the rows already created) and becomes one `UnprocessedSatelliteImage`
row. Returns the created rows and the first error, if any. -/
def saveDownloadedFiles (reservoir : ℕ) :
    List DriveFile → List SatImage × Option PipeErr
  | [] => ([], none)
  | f :: rest =>
    match f.parsedDate with
    | none => ([], some (.dateParse f.fileId))
    | some d =>
      let s := saveDownloadedFiles reservoir rest
      (⟨f.fileId, reservoir, d, f.cloudPercentage⟩ :: s.1, s.2)

/-- `download_new_images`: submit export tasks (their ids come from the
opaque provider), wait for them, then download and save. When the wait
raises, no row is created. -/
def download_new_images (env : PipeEnv) (reservoir : ℕ) :
    List SatImage × Option PipeErr :=
  match wait_for_export_tasks env.statusAt env.tasks 6000000 30 with
  | .error e => ([], some e)
  | .ok _ => saveDownloadedFiles reservoir env.files

/-! ## `calculate_download_period` (tasks.py lines 191-215) -/

/-- Maximum of a list of dates (`aggregate(Max('image_date'))`), `none`
on an empty queryset. -/
def lastDate : List ℤ → Option ℤ
  | [] => none
  | d :: rest =>
    match lastDate rest with
    | none => some d
    | some m => some (max d m)

/-- `calculate_download_period`: `date` objects are always truthy, so
`if last_marked_date and last_marked_date < request_end` is exactly the
`some`-plus-comparison test; the final branch widens a degenerate
interval by one day. -/
def calculate_download_period (lastMarked : Option ℤ) (requestStart requestEnd : ℤ) :
    Option (ℤ × ℤ) :=
  let base : Option (ℤ × ℤ) :=
    match lastMarked with
    | some l => if l < requestEnd then some (l + 1, requestEnd) else none
    | none => some (requestStart, requestEnd)
  match base with
  | none => none
  | some (ns, ne) => if ns = ne then some (ns, ne + 1) else some (ns, ne)

/-! ## `process_model` (tasks.py lines 259-304) -/

/-- The image loop of `process_model`. For each image the `try` body
runs `predictor.process_image` (failure oracle `procFails`), creates the
`Analysis` row, then runs `MapGenerator` and creates the result row
(failure oracle `mapFails`, firing after the `Analysis` row exists). The
`except` clause prints the error and re-raises it, ending the loop.
Returns the `Analysis` rows created and the first error, if any. -/
def process_model (env : PipeEnv) (modelId groupIdx : ℕ) :
    List SatImage → List AnalysisRec × Option PipeErr
  | [] => ([], none)
  | img :: rest =>
    if env.procFails modelId img then
      ([], some (.imageProcessing img.imageDate))
    else if env.mapFails modelId img then
      ([⟨groupIdx, img.imageDate, img.cloudPercentage⟩],
       some (.imageProcessing img.imageDate))
    else
      let s := process_model env modelId groupIdx rest
      (⟨groupIdx, img.imageDate, img.cloudPercentage⟩ :: s.1, s.2)

/-! ## `process_request` (tasks.py lines 95-188) -/

/-- Replace the fields of the request with the given id (a
`request.save()` after mutating the in-memory instance). -/
def updateRequest (db : DB) (reqId : ℕ) (f : RequestRec → RequestRec) : DB :=
  { db with requests := db.requests.map fun r => if r.id = reqId then f r else r }

/-- `AnalysisRequest.objects.get(id=request_id)` (first row with the id). -/
def findRequest (db : DB) (reqId : ℕ) : Option RequestRec :=
  db.requests.find? fun r => r.id = reqId

/-- Status of the request with the given id, if it exists. -/
def statusOf (db : DB) (reqId : ℕ) : Option Status :=
  (findRequest db reqId).map (·.status)

/-- The `except` clause of `process_request`: set the status to `FAILED`,
save, and re-raise. -/
def failRequest (db : DB) (reqId : ℕ) (e : PipeErr) : DB × Option PipeErr :=
  (updateRequest db reqId fun r => { r with status := .failed }, some e)

/-- `models.values("reservoir").distinct()` as a deduplicated list. -/
def distinctReservoirs (models : List MLModel) : List ℕ :=
  (models.map (·.reservoir)).dedup

/-- The parameters that `values("parameter").annotate(count=...)` reports
with `count > 1`. -/
def duplicateParameters (models : List MLModel) : List ℕ :=
  (models.map (·.parameter)).dedup.filter fun p =>
    1 < (models.map (·.parameter)).count p

/-- The image cache rows for the reservoir whose date lies in the
request's range (`image_date__range=(start, end)`, both ends
inclusive). -/
def imagesInRange (images : List SatImage) (reservoir : ℕ) (startDate endDate : ℤ) :
    List SatImage :=
  images.filter fun img =>
    decide (img.reservoir = reservoir ∧
      startDate ≤ img.imageDate ∧ img.imageDate ≤ endDate)

/-- The `for model in models` loop of `process_request`: each model's
`process_model` appends its `Analysis` rows to the store; an error ends
the loop and propagates. -/
def process_models_loop (env : PipeEnv) (groupIdx : ℕ) (images : List SatImage)
    (db : DB) : List MLModel → DB × Option PipeErr
  | [] => (db, none)
  | m :: rest =>
    let pm := process_model env m.id groupIdx images
    let db1 := { db with analyses := db.analyses ++ pm.1 }
    match pm.2 with
    | some e => (db1, some e)
    | none => process_models_loop env groupIdx images db1 rest

/-- The tail of `process_request` from the re-query of all images in the
requested range (tasks.py line 168) to the `COMPLETED` transition, with
the `except` wrapper applied to its errors. -/
def process_request_infer (env : PipeEnv) (db : DB) (reqId : ℕ)
    (req : RequestRec) (models : List MLModel) (reservoir groupIdx : ℕ) :
    DB × Option PipeErr :=
  let allImages := imagesInRange db.images reservoir req.startDate req.endDate
  let db1 := updateRequest db reqId fun r => { r with status := .processingImages }
  let pml := process_models_loop env groupIdx allImages db1 models
  match pml.2 with
  | some e => failRequest pml.1 reqId e
  | none =>
    (updateRequest pml.1 reqId fun r => { r with status := .completed }, none)

/-- The middle of `process_request` (tasks.py lines 138-165): create the
`AnalysisGroup`, attach it and move to `DOWNLOADING_IMAGES`, compute the
download gap from the cached images, download if a gap exists (a download
error fails the request, keeping the rows already created), then hand
over to the inference tail. -/
def process_request_acquire (env : PipeEnv) (db : DB) (reqId : ℕ)
    (req : RequestRec) (models : List MLModel) (reservoir groupIdx : ℕ) :
    DB × Option PipeErr :=
  let db1 :=
    { db with groups := db.groups ++ [⟨reservoir, req.startDate, req.endDate⟩] }
  let db2 := updateRequest db1 reqId fun r =>
    { r with groupIdx := some groupIdx, status := .downloadingImages }
  let marked := imagesInRange db2.images reservoir req.startDate req.endDate
  let lastMarked := lastDate (marked.map (·.imageDate))
  match calculate_download_period lastMarked req.startDate req.endDate with
  | some _ =>
    let dl := download_new_images env reservoir
    let db3 := { db2 with images := db2.images ++ dl.1 }
    match dl.2 with
    | some e => failRequest db3 reqId e
    | none => process_request_infer env db3 reqId req models reservoir groupIdx
  | none => process_request_infer env db2 reqId req models reservoir groupIdx

/-- `process_request` (tasks.py lines 95-188). The initial
`objects.get` is outside the `try`, so a missing request raises without
any status change. Inside the `try`: validate the model set, then run
acquisition and inference. Any exception sets the status to `FAILED`
(keeping all rows created so far) and is re-raised. An empty model set
makes `models.first()` return `None` and the attribute access raise
(`noModels`). -/
def process_request (env : PipeEnv) (db : DB) (reqId : ℕ) : DB × Option PipeErr :=
  match findRequest db reqId with
  | none => (db, some .requestNotFound)
  | some req =>
    let models := db.mlModels.filter fun m => req.modelIds.contains m.id
    if 1 < (distinctReservoirs models).length then
      failRequest db reqId .multipleReservoirs
    else if duplicateParameters models ≠ [] then
      failRequest db reqId (.duplicateParameters (duplicateParameters models))
    else
      match models.head? with
      | none => failRequest db reqId .noModels
      | some m0 =>
        process_request_acquire env db reqId req models m0.reservoir db.groups.length

/-! ## `check_for_new_requests` (tasks.py lines 78-92) -/

/-- The ids of the requests the scheduler query returns (status
`QUEUED`), in table order. -/
def queuedIds (db : DB) : List ℕ :=
  (db.requests.filter fun r => r.status = .queued).map (·.id)

/-- The `for request in new_requests` loop: each request is processed in
turn; `process_request` has no surrounding handler, so its re-raised
exception ends the loop. -/
def run_requests (env : PipeEnv) : List ℕ → DB → DB × Option PipeErr
  | [], db => (db, none)
  | i :: rest, db =>
    let pr := process_request env db i
    match pr.2 with
    | some e => (pr.1, some e)
    | none => run_requests env rest pr.1

/-- `check_for_new_requests`: query the `QUEUED` requests, then process
each one. -/
def check_for_new_requests (env : PipeEnv) (db : DB) : DB × Option PipeErr :=
  run_requests env (queuedIds db) db

/-! ## Concrete scenarios used by witnesses and counterexamples -/

/-- An environment in which no export tasks exist, Drive returns no
files, and no image ever fails processing. -/
def envBasic : PipeEnv :=
  ⟨[], fun _ _ => none, [], fun _ _ => false, fun _ _ => false⟩

/-- An environment like `envBasic` except that processing the image with
raw bytes id `100` raises in `predictor.process_image`. -/
def envFailFirstImage : PipeEnv :=
  ⟨[], fun _ _ => none, [], fun _ img => img.imageId == 100, fun _ _ => false⟩

/-- Request `0`, queued, range `[0, 10]`, models `1` and `2`. -/
def reqTwoModels : RequestRec := ⟨0, .queued, 0, 10, [1, 2], none⟩

/-- A store whose two models live on different reservoirs. -/
def dbTwoReservoirs : DB := ⟨[reqTwoModels], [⟨1, 5, 3⟩, ⟨2, 6, 4⟩], [], [], []⟩

/-- A store whose two models live on one reservoir but share parameter
`3`. -/
def dbDupParameter : DB := ⟨[reqTwoModels], [⟨1, 5, 3⟩, ⟨2, 5, 3⟩], [], [], []⟩

/-- A store with one queued request over `[0, 10]`, one model, and two
cached in-range images (raw bytes ids `100` and `101`). -/
def dbTwoImages : DB :=
  ⟨[⟨0, .queued, 0, 10, [1], none⟩], [⟨1, 5, 3⟩],
   [⟨100, 5, 1, 0⟩, ⟨101, 5, 2, 0⟩], [], []⟩

/-- Export-task status report: task `1` completed, task `2` failed. -/
def statusSecondFailed : ℕ → ℕ → Option TaskState := fun _ t =>
  if t = 1 then some .completed else if t = 2 then some .failed else none

/-- An environment with export tasks `1` and `2` reporting
`statusSecondFailed`. -/
def envFailedTask : PipeEnv :=
  ⟨[1, 2], statusSecondFailed, [], fun _ _ => false, fun _ _ => false⟩

/-- Request `0`, queued, degenerate range `[5, 5]`, model `1`. -/
def reqDegenerate : RequestRec := ⟨0, .queued, 5, 5, [1], none⟩

/-- A store with the degenerate-range request and an empty image cache,
so the download gap is `[5, 5]` widened to `[5, 6]`. -/
def dbDegenerateGap : DB := ⟨[reqDegenerate], [⟨1, 5, 3⟩], [], [], []⟩

/-- An environment whose one export task completes at once and whose
Drive folder holds files dated `5` and `6` — the second one day past the
requested end, produced by the widened gap. -/
def envExtraDay : PipeEnv :=
  ⟨[7], fun _ t => if t = 7 then some .completed else none,
   [⟨200, some 5, 0⟩, ⟨201, some 6, 0⟩], fun _ _ => false, fun _ _ => false⟩

/-- A store with two queued requests: request `0` references models on
two different reservoirs (and so fails validation), request `1` is
well-formed. -/
def dbTwoQueued : DB :=
  ⟨[⟨0, .queued, 0, 10, [1, 2], none⟩, ⟨1, .queued, 0, 10, [1], none⟩],
   [⟨1, 5, 3⟩, ⟨2, 6, 3⟩], [], [], []⟩

/-! ## Lemmas about the inference engine -/

/-- `np.nan_to_num` always returns a finite value. -/
theorem isFin_nanToNum (v : FloatVal) : isFin (nanToNum v) = true := by
  cases v <;> rfl

/-- Every entry of the feature row of an all-finite pixel is finite: the
raw bands by assumption, the seven derived features because their
divisions are guarded and `np.nan_to_num` replaces any `nan`/`inf`, and
the two temporal scalars by construction. -/
theorem featureRow_allFin (p : Pixel) (m s : ℚ) (hp : p.allFin = true) :
    ∀ v ∈ featureRow p m s, isFin v = true := by
  simp only [Pixel.allFin, Bool.and_eq_true] at hp
  obtain ⟨⟨⟨⟨⟨h2, h3⟩, h4⟩, h5⟩, h8⟩, h11⟩ := hp
  intro v hv
  simp only [featureRow, List.mem_cons, List.not_mem_nil, or_false] at hv
  rcases hv with rfl | rfl | rfl | rfl | rfl | rfl | rfl | rfl | rfl | rfl
    | rfl | rfl | rfl | rfl | rfl
  · exact h2
  · exact h3
  · exact h4
  · exact h5
  · exact h8
  · exact h11
  · exact isFin_nanToNum _
  · exact isFin_nanToNum _
  · exact isFin_nanToNum _
  · exact isFin_nanToNum _
  · exact isFin_nanToNum _
  · exact isFin_nanToNum _
  · exact isFin_nanToNum _
  · rfl
  · rfl

/-- Every pixel of a processed chunk is the sentinel or a prediction on
the feature row of a water pixel of the chunk. -/
theorem process_chunk_mem (predict : List FloatVal → FloatVal) (m s : ℚ)
    (chunk : List Pixel) (v : FloatVal) (hv : v ∈ process_chunk predict m s chunk) :
    v = fin (-9999) ∨
      ∃ p, p ∈ chunk ∧ waterMask p = true ∧ v = predict (featureRow p m s) := by
  simp only [process_chunk, List.mem_map] at hv
  obtain ⟨p, hp, rfl⟩ := hv
  by_cases h : waterMask p
  · exact Or.inr ⟨p, hp, h, by simp [h]⟩
  · exact Or.inl (by simp [h])

/-- The window loop visits every window of its input list, in order,
whether or not individual windows fail. -/
theorem process_windows_map_fst (predict : List FloatVal → FloatVal)
    (read : Win → List Pixel) (cf : Win → Bool) (m : ℕ) :
    ∀ ws, (process_windows predict read cf m ws).map Prod.fst = ws := by
  intro ws
  induction ws with
  | nil => rfl
  | cons w rest ih => simp [process_windows, ih]

/-- The output of each visited window: the all-sentinel pre-fill when the
window failed, the processed chunk otherwise. -/
theorem process_windows_mem (predict : List FloatVal → FloatVal)
    (read : Win → List Pixel) (cf : Win → Bool) (m : ℕ) :
    ∀ ws (win : Win) (out : List FloatVal),
      (win, out) ∈ process_windows predict read cf m ws →
      out = if cf win then List.replicate win.size (fin (-9999))
            else process_chunk predict (m : ℚ) ((season_of_month m : ℕ) : ℚ) (read win) := by
  intro ws
  induction ws with
  | nil => intro win out h; cases h
  | cons w rest ih =>
    intro win out h
    simp only [process_windows, List.mem_cons, Prod.mk.injEq] at h
    rcases h with ⟨rfl, rfl⟩ | h
    · rfl
    · exact ih win out h

/-! ## Claim C2 (season formula) -/

/-- C2, counterexample: for month 1 (January) the season scalar the code
computes and passes into the feature row is `2`, while the formula the
claim states, `((m - 1) // 3) + 1`, gives `1`. -/
theorem claim_C2_cex :
    season_of_month 1 = 2 ∧ seasonSpecFormula 1 = 1 ∧
    season_of_month 1 ≠ seasonSpecFormula 1 ∧
    (featureRow ⟨fin 1, fin 1, fin 1, fin 1, fin 1, fin 1⟩ 1
        ((season_of_month 1 : ℕ) : ℚ)).get? 14 = some (fin 2) := by
  refine ⟨rfl, rfl, by decide, ?_⟩
  decide

/-- C2, amended: for every month `m` in `1..12` the season feature passed
to the model is computed as `((m + 2) // 3) % 4 + 1`, which maps
January..March to season 2, April..June to 3, July..September to 4 and
October..December to 1; it never agrees with the specified formula
`((m - 1) // 3) + 1` on `1..12`, and it occupies position 14 (the
`Season` column) of the feature row. -/
theorem claim_C2 : ∀ m : ℕ, 1 ≤ m → m ≤ 12 →
    season_of_month m =
      (if m ≤ 3 then 2 else if m ≤ 6 then 3 else if m ≤ 9 then 4 else 1) ∧
    season_of_month m ≠ seasonSpecFormula m ∧
    ∀ p : Pixel,
      (featureRow p m ((season_of_month m : ℕ) : ℚ)).get? 14 =
        some (fin (season_of_month m)) := by
  intro m h1 h2
  refine ⟨?_, ?_, fun p => rfl⟩
  · interval_cases m <;> decide
  · interval_cases m <;> decide

/-- C2, witness: the amended theorem applied at January. -/
theorem claim_C2_witness :
    1 ≤ 1 ∧ (1 : ℕ) ≤ 12 ∧ season_of_month 1 ≠ seasonSpecFormula 1 :=
  ⟨by decide, by decide, (claim_C2 1 (by decide) (by decide)).2.1⟩

/-! ## Claim C7 (no nan/inf in the output raster) -/

/-- C7: if the opaque scaler+regressor maps finite feature rows to finite
values and the raster's band values are finite, then every pixel of every
window of the output is a finite value (the `-9999` sentinel or a finite
prediction) — no `nan` or `inf` appears; moreover each guarded division
substitutes `0` whenever its denominator (or either ratio operand) is
zero. -/
theorem claim_C7 :
    (∀ (predict : List FloatVal → FloatVal) (read : Win → List Pixel)
        (cf : Win → Bool) (m height width : ℕ),
      (∀ fs, (∀ v ∈ fs, isFin v = true) → isFin (predict fs) = true) →
      (∀ win, ∀ p ∈ read win, p.allFin = true) →
      ∀ win out, (win, out) ∈ process_image predict read cf m height width →
        ∀ v ∈ out, isFin v = true) ∧
    (∀ p : Pixel,
      (fadd p.b3 p.b11 = fin 0 → mndwi p = fin 0) ∧
      (fadd p.b5 p.b4 = fin 0 → ndci p = fin 0) ∧
      (fadd p.b8 p.b4 = fin 0 → ndvi p = fin 0) ∧
      ((p.b2 = fin 0 ∨ p.b3 = fin 0) → ratioB3B2 p = fin 0) ∧
      ((p.b3 = fin 0 ∨ p.b4 = fin 0) → ratioB4B3 p = fin 0) ∧
      ((p.b4 = fin 0 ∨ p.b5 = fin 0) → ratioB5B4 p = fin 0)) := by
  constructor
  · intro predict read cf m height width hpredict hread win out hmem v hv
    have hout := process_windows_mem predict read cf m _ win out hmem
    by_cases hcf : cf win
    · rw [hout, if_pos hcf] at hv
      rw [List.eq_of_mem_replicate hv]
      rfl
    · rw [hout, if_neg hcf] at hv
      rcases process_chunk_mem _ _ _ _ _ hv with rfl | ⟨p, hp, _, rfl⟩
      · rfl
      · exact hpredict _ (featureRow_allFin p _ _ (hread win p hp))
  · intro p
    refine ⟨fun h => ?_, fun h => ?_, fun h => ?_, fun h => ?_, fun h => ?_,
      fun h => ?_⟩
    · simp [mndwi, h, neZero, nanToNum]
    · simp [ndci, h, neZero, nanToNum]
    · simp [ndvi, h, neZero, nanToNum]
    · rcases h with h | h <;> simp [ratioB3B2, h, neZero, nanToNum]
    · rcases h with h | h <;> simp [ratioB4B3, h, neZero, nanToNum]
    · rcases h with h | h <;> simp [ratioB5B4, h, neZero, nanToNum]

/-- C7, witness: a one-window raster under a constant finite predictor,
whose output pixel the theorem certifies finite, and a pixel with a zero
`B3 + B11` denominator on which the guard substitutes `0`. -/
theorem claim_C7_witness :
    isFin (fin (-9999 : ℚ)) = true ∧
    mndwi ⟨fin 1, fin 0, fin 1, fin 1, fin 1, fin 0⟩ = fin 0 := by
  constructor
  · exact claim_C7.1 (fun _ => fin (7 : ℚ)) (fun _ => []) (fun _ => true)
      5 1 1 (fun _ _ => rfl) (fun _ p hp => absurd hp (List.not_mem_nil p))
      ⟨0, 0, 1, 1⟩ [fin (-9999 : ℚ)] (by decide) (fin (-9999 : ℚ)) (by decide)
  · exact (claim_C7.2 ⟨fin 1, fin 0, fin 1, fin 1, fin 1, fin 0⟩).1
      (by norm_num [FloatVal.fadd])

/-! ## Claim C8 (per-window failure is localized) -/

/-- C8: the window loop visits every window of the raster regardless of
failures; a failing window contributes exactly the all-sentinel pre-fill
for its own region, and a non-failing window contributes exactly its
processed chunk, unaffected by other windows' failures. -/
theorem claim_C8 : ∀ (predict : List FloatVal → FloatVal)
    (read : Win → List Pixel) (cf : Win → Bool) (m height width : ℕ),
    (process_image predict read cf m height width).map Prod.fst =
      imageWindows height width 500 ∧
    ∀ win out, (win, out) ∈ process_image predict read cf m height width →
      (cf win = true → out = List.replicate win.size (fin (-9999)) ∧
        ∀ v ∈ out, v = fin (-9999)) ∧
      (cf win = false →
        out = process_chunk predict (m : ℚ) ((season_of_month m : ℕ) : ℚ)
          (read win)) := by
  intro predict read cf m height width
  refine ⟨process_windows_map_fst predict read cf m _, ?_⟩
  intro win out hmem
  have hout := process_windows_mem predict read cf m _ win out hmem
  constructor
  · intro hcf
    rw [hout, if_pos hcf]
    exact ⟨rfl, fun v hv => List.eq_of_mem_replicate hv⟩
  · intro hcf
    rw [hout, if_neg (by simp [hcf])]

/-- C8, witness: a one-row raster 501 pixels wide, giving two windows;
the second window (a single pixel) fails and comes out all-sentinel, the
first is its processed chunk, and both windows are visited. -/
theorem claim_C8_witness :
    (process_image (fun _ => fin (7 : ℚ)) (fun _ => [])
        (fun win => decide (win.x ≠ 0)) 5 1 501).map Prod.fst =
      imageWindows 1 501 500 ∧
    ([fin (-9999)] : List FloatVal) =
      List.replicate (Win.size ⟨0, 500, 1, 501⟩) (fin (-9999)) ∧
    ([] : List FloatVal) =
      process_chunk (fun _ => fin (7 : ℚ)) ((5 : ℕ) : ℚ)
        ((season_of_month 5 : ℕ) : ℚ) [] :=
  ⟨(claim_C8 (fun _ => fin (7 : ℚ)) (fun _ => [])
      (fun win => decide (win.x ≠ 0)) 5 1 501).1,
   (((claim_C8 (fun _ => fin (7 : ℚ)) (fun _ => [])
      (fun win => decide (win.x ≠ 0)) 5 1 501).2 ⟨0, 500, 1, 501⟩
      [fin (-9999)] (by decide)).1 (by decide)).1,
   ((claim_C8 (fun _ => fin (7 : ℚ)) (fun _ => [])
      (fun win => decide (win.x ≠ 0)) 5 1 501).2 ⟨0, 0, 1, 500⟩
      [] (by decide)).2 (by decide)⟩

/-! ## Lemmas about the request store -/

/-- Two stores with the same request table resolve every lookup alike. -/
theorem findRequest_congr {db1 db2 : DB} (h : db1.requests = db2.requests)
    (reqId : ℕ) : findRequest db1 reqId = findRequest db2 reqId := by
  simp [findRequest, h]

/-- Updating request `i` with an id-preserving function leaves every
other lookup unchanged. -/
theorem findRequest_updateRequest_ne (db : DB) (i j : ℕ)
    (f : RequestRec → RequestRec) (hf : ∀ r, (f r).id = r.id) (hne : j ≠ i) :
    findRequest (updateRequest db i f) j = findRequest db j := by
  simp only [findRequest, updateRequest]
  induction db.requests with
  | nil => rfl
  | cons r rs ih =>
    simp only [List.map_cons]
    by_cases hr : r.id = i
    · rw [if_pos hr]
      rw [List.find?_cons_of_neg, List.find?_cons_of_neg]
      · exact ih
      · simp [hr, Ne.symm hne]
      · simp [hf r, hr, Ne.symm hne]
    · rw [if_neg hr]
      by_cases hj : r.id = j
      · rw [List.find?_cons_of_pos _ (by simp [hj]),
          List.find?_cons_of_pos _ (by simp [hj])]
      · rw [List.find?_cons_of_neg _ (by simp [hj]),
          List.find?_cons_of_neg _ (by simp [hj])]
        exact ih

/-- Updating request `i` with an id-preserving function maps the looked
up record through the function. -/
theorem findRequest_updateRequest_self (db : DB) (i : ℕ)
    (f : RequestRec → RequestRec) (hf : ∀ r, (f r).id = r.id) :
    findRequest (updateRequest db i f) i = (findRequest db i).map f := by
  simp only [findRequest, updateRequest]
  induction db.requests with
  | nil => rfl
  | cons r rs ih =>
    simp only [List.map_cons]
    by_cases hr : r.id = i
    · rw [if_pos hr]
      rw [List.find?_cons_of_pos _ (by simp [hf r, hr]),
        List.find?_cons_of_pos _ (by simp [hr])]
      rfl
    · rw [if_neg hr]
      rw [List.find?_cons_of_neg _ (by simp [hr]),
        List.find?_cons_of_neg _ (by simp [hr])]
      exact ih

/-- In a request table with distinct ids, lookup of a member's id finds
exactly that member. -/
theorem find?_id_of_mem_nodup (rs : List RequestRec) (r : RequestRec)
    (hnd : (rs.map (·.id)).Nodup) (hr : r ∈ rs) :
    rs.find? (fun x => x.id = r.id) = some r := by
  induction rs with
  | nil => cases hr
  | cons x rs ih =>
    simp only [List.map_cons, List.nodup_cons] at hnd
    rcases List.mem_cons.mp hr with rfl | hr2
    · exact List.find?_cons_of_pos _ (by simp)
    · have hxne : x.id ≠ r.id := by
        intro h
        exact hnd.1 (h ▸ List.mem_map_of_mem (·.id) hr2)
      rw [List.find?_cons_of_neg _ (by simp [hxne])]
      exact ih hnd.2 hr2

/-- In a store whose request ids are distinct, lookup of a member's id
returns exactly that member. -/
theorem findRequest_of_mem_nodup (db : DB) (r : RequestRec)
    (hnd : (db.requests.map (·.id)).Nodup) (hr : r ∈ db.requests) :
    findRequest db r.id = some r :=
  find?_id_of_mem_nodup db.requests r hnd hr

/-! ## Lemmas about the inference stage of the pipeline -/

/-- Every `Analysis` row the image loop creates carries the date of one
of the images it was given. -/
theorem process_model_dates (env : PipeEnv) (m g : ℕ) :
    ∀ imgs, ∀ a ∈ (process_model env m g imgs).1,
      a.analysisDate ∈ imgs.map (·.imageDate) := by
  intro imgs
  induction imgs with
  | nil => intro a ha; simp [process_model] at ha
  | cons img rest ih =>
    intro a ha
    by_cases h1 : env.procFails m img
    · simp [process_model, h1] at ha
    · by_cases h2 : env.mapFails m img
      · simp only [process_model, h1, h2, Bool.false_eq_true, if_false, if_true,
          List.mem_singleton] at ha
        subst ha
        simp
      · simp only [process_model, h1, h2, Bool.false_eq_true, if_false] at ha
        rcases List.mem_cons.mp ha with rfl | ha2
        · simp
        · simp only [List.map_cons, List.mem_cons]
          exact Or.inr (ih a ha2)

/-- The image loop processes the clean prefix, then stops at the first
image whose inference raises: the error is re-raised, the rows for the
prefix stand, and no image after the failing one is processed. -/
theorem process_model_stops (env : PipeEnv) (m g : ℕ) :
    ∀ (pre : List SatImage) (img : SatImage) (post : List SatImage),
      (∀ i ∈ pre, env.procFails m i = false ∧ env.mapFails m i = false) →
      env.procFails m img = true →
      process_model env m g (pre ++ img :: post) =
        (pre.map fun i => ⟨g, i.imageDate, i.cloudPercentage⟩,
         some (.imageProcessing img.imageDate)) := by
  intro pre
  induction pre with
  | nil => intro img post _ himg; simp [process_model, himg]
  | cons i pre ih =>
    intro img post hpre himg
    obtain ⟨h1, h2⟩ := hpre i (List.mem_cons_self i pre)
    have heq := ih img post (fun x hx => hpre x (List.mem_cons_of_mem i hx)) himg
    simp [process_model, h1, h2, heq]

/-- The model loop only appends analyses: requests, groups, images and
models are untouched, and every appended row dates from the image list. -/
theorem process_models_loop_spec (env : PipeEnv) (g : ℕ) (imgs : List SatImage) :
    ∀ (ms : List MLModel) (db : DB),
      (process_models_loop env g imgs db ms).1.requests = db.requests ∧
      (process_models_loop env g imgs db ms).1.groups = db.groups ∧
      (process_models_loop env g imgs db ms).1.images = db.images ∧
      (process_models_loop env g imgs db ms).1.mlModels = db.mlModels ∧
      ∃ as, (process_models_loop env g imgs db ms).1.analyses = db.analyses ++ as ∧
        ∀ a ∈ as, a.analysisDate ∈ imgs.map (·.imageDate) := by
  intro ms
  induction ms with
  | nil =>
    intro db
    refine ⟨rfl, rfl, rfl, rfl, ?_⟩
    exact ⟨[], by simp [process_models_loop], by simp⟩
  | cons m rest ih =>
    intro db
    simp only [process_models_loop]
    cases hpm : (process_model env m.id g imgs).2 with
    | some e =>
      simp only [hpm]
      refine ⟨by trivial, by trivial, by trivial, by trivial, ?_⟩
      exact ⟨(process_model env m.id g imgs).1, rfl,
        fun a ha => process_model_dates env m.id g imgs a ha⟩
    | none =>
      simp only [hpm]
      obtain ⟨hr, hg, hi, hm, as, ha, hdates⟩ :=
        ih { db with analyses := db.analyses ++ (process_model env m.id g imgs).1 }
      refine ⟨hr, hg, hi, hm, (process_model env m.id g imgs).1 ++ as, ?_, ?_⟩
      · rw [ha]
        simp [List.append_assoc]
      · intro a haa
        rcases List.mem_append.mp haa with h | h
        · exact process_model_dates env m.id g imgs a h
        · exact hdates a h

/-- Dates of in-range images lie in the range. -/
theorem imagesInRange_dates (imgs : List SatImage) (res : ℕ) (s e : ℤ) :
    ∀ d ∈ (imagesInRange imgs res s e).map (·.imageDate), s ≤ d ∧ d ≤ e := by
  intro d hd
  simp only [imagesInRange, List.mem_map, List.mem_filter] at hd
  obtain ⟨img, ⟨_, hcond⟩, rfl⟩ := hd
  rw [decide_eq_true_eq] at hcond
  exact ⟨hcond.2.1, hcond.2.2⟩

/-- Effect of the inference tail of `process_request`: groups, images
and models are untouched; the analyses appended all date within the
requested range; other requests are untouched; and the request itself
ends `COMPLETED` exactly when no error is re-raised, `FAILED`
otherwise. -/
theorem process_request_infer_spec (env : PipeEnv) (db : DB) (reqId : ℕ)
    (req : RequestRec) (models : List MLModel) (reservoir g : ℕ) :
    (process_request_infer env db reqId req models reservoir g).1.groups = db.groups ∧
    (process_request_infer env db reqId req models reservoir g).1.images = db.images ∧
    (process_request_infer env db reqId req models reservoir g).1.mlModels = db.mlModels ∧
    (∃ as,
      (process_request_infer env db reqId req models reservoir g).1.analyses =
        db.analyses ++ as ∧
      ∀ a ∈ as, req.startDate ≤ a.analysisDate ∧ a.analysisDate ≤ req.endDate) ∧
    (∀ j, j ≠ reqId →
      findRequest (process_request_infer env db reqId req models reservoir g).1 j =
        findRequest db j) ∧
    ∃ st,
      findRequest (process_request_infer env db reqId req models reservoir g).1 reqId =
        (findRequest db reqId).map (fun r => { r with status := st }) ∧
      (((process_request_infer env db reqId req models reservoir g).2 = none ∧
          st = Status.completed) ∨
       (∃ e, (process_request_infer env db reqId req models reservoir g).2 = some e ∧
          st = Status.failed)) := by
  obtain ⟨hreq, hgrp, himgs, hml, as, han, hdates⟩ :=
    process_models_loop_spec env g
      (imagesInRange db.images reservoir req.startDate req.endDate) models
      (updateRequest db reqId fun r => { r with status := Status.processingImages })
  simp only [process_request_infer]
  cases hpml : (process_models_loop env g
      (imagesInRange db.images reservoir req.startDate req.endDate)
      (updateRequest db reqId fun r => { r with status := Status.processingImages })
      models).2 with
  | none =>
    simp only [hpml]
    refine ⟨hgrp, himgs, hml, ⟨as, han, ?_⟩, ?_, Status.completed, ?_,
      Or.inl ⟨by trivial, rfl⟩⟩
    · exact fun a ha =>
        imagesInRange_dates db.images reservoir req.startDate req.endDate
          a.analysisDate (hdates a ha)
    · intro j hj
      rw [findRequest_updateRequest_ne _ reqId j
          (fun r => { r with status := Status.completed }) (fun r => rfl) hj,
        findRequest_congr hreq j,
        findRequest_updateRequest_ne db reqId j
          (fun r => { r with status := Status.processingImages }) (fun r => rfl) hj]
    · rw [findRequest_updateRequest_self _ reqId
          (fun r => { r with status := Status.completed }) (fun r => rfl),
        findRequest_congr hreq reqId,
        findRequest_updateRequest_self db reqId
          (fun r => { r with status := Status.processingImages }) (fun r => rfl)]
      cases findRequest db reqId <;> rfl
  | some e =>
    simp only [hpml, failRequest]
    refine ⟨hgrp, himgs, hml, ⟨as, han, ?_⟩, ?_, Status.failed, ?_,
      Or.inr ⟨e, by trivial, rfl⟩⟩
    · exact fun a ha =>
        imagesInRange_dates db.images reservoir req.startDate req.endDate
          a.analysisDate (hdates a ha)
    · intro j hj
      rw [findRequest_updateRequest_ne _ reqId j
          (fun r => { r with status := Status.failed }) (fun r => rfl) hj,
        findRequest_congr hreq j,
        findRequest_updateRequest_ne db reqId j
          (fun r => { r with status := Status.processingImages }) (fun r => rfl) hj]
    · rw [findRequest_updateRequest_self _ reqId
          (fun r => { r with status := Status.failed }) (fun r => rfl),
        findRequest_congr hreq reqId,
        findRequest_updateRequest_self db reqId
          (fun r => { r with status := Status.processingImages }) (fun r => rfl)]
      cases findRequest db reqId <;> rfl

@[simp] theorem updateRequest_groups (db : DB) (i : ℕ) (f : RequestRec → RequestRec) :
    (updateRequest db i f).groups = db.groups := rfl

@[simp] theorem updateRequest_images (db : DB) (i : ℕ) (f : RequestRec → RequestRec) :
    (updateRequest db i f).images = db.images := rfl

@[simp] theorem updateRequest_analyses (db : DB) (i : ℕ) (f : RequestRec → RequestRec) :
    (updateRequest db i f).analyses = db.analyses := rfl

@[simp] theorem updateRequest_mlModels (db : DB) (i : ℕ) (f : RequestRec → RequestRec) :
    (updateRequest db i f).mlModels = db.mlModels := rfl

/-- Effect of the acquisition stage plus inference: exactly one group is
appended; images only grow; appended analyses date within the requested
range; other requests are untouched; the request record keeps its core
fields, gains the group, and ends `COMPLETED` exactly when no error is
re-raised, `FAILED` otherwise. -/
theorem process_request_acquire_spec (env : PipeEnv) (db : DB) (reqId : ℕ)
    (req : RequestRec) (models : List MLModel) (reservoir g : ℕ)
    (hfind : findRequest db reqId = some req) :
    (∃ gs, (process_request_acquire env db reqId req models reservoir g).1.groups =
      db.groups ++ gs) ∧
    (∃ newImgs,
      (process_request_acquire env db reqId req models reservoir g).1.images =
        db.images ++ newImgs) ∧
    (∃ as, (process_request_acquire env db reqId req models reservoir g).1.analyses =
        db.analyses ++ as ∧
      ∀ a ∈ as, req.startDate ≤ a.analysisDate ∧ a.analysisDate ≤ req.endDate) ∧
    (∀ j, j ≠ reqId →
      findRequest (process_request_acquire env db reqId req models reservoir g).1 j =
        findRequest db j) ∧
    ∃ r, findRequest (process_request_acquire env db reqId req models reservoir g).1
        reqId = some r ∧
      r.id = req.id ∧ r.startDate = req.startDate ∧ r.endDate = req.endDate ∧
      r.modelIds = req.modelIds ∧
      (((process_request_acquire env db reqId req models reservoir g).2 = none ∧
          r.status = Status.completed) ∨
       (∃ e, (process_request_acquire env db reqId req models reservoir g).2 = some e ∧
          r.status = Status.failed)) := by
  simp only [process_request_acquire, updateRequest_groups, updateRequest_images,
    updateRequest_analyses, updateRequest_mlModels]
  cases hgap : calculate_download_period
      (lastDate (List.map (fun x => x.imageDate)
        (imagesInRange db.images reservoir req.startDate req.endDate)))
      req.startDate req.endDate with
  | none =>
    simp only [hgap]
    obtain ⟨hg, hi, hm, ⟨as, han, hdates⟩, hne, st, hself, hdisj⟩ :=
      process_request_infer_spec env
        (updateRequest
          { db with groups :=
              db.groups ++ [⟨reservoir, req.startDate, req.endDate⟩] }
          reqId fun r =>
            { r with groupIdx := some g, status := Status.downloadingImages })
        reqId req models reservoir g
    refine ⟨⟨[⟨reservoir, req.startDate, req.endDate⟩], hg⟩, ⟨[], ?_⟩,
      ⟨as, han, hdates⟩, ?_, ⟨req.id, st, req.startDate, req.endDate,
        req.modelIds, some g⟩, ?_, rfl, rfl, rfl, rfl, hdisj⟩
    · rw [List.append_nil]
      exact hi
    · intro j hj
      rw [hne j hj]
      rw [findRequest_updateRequest_ne _ reqId j
        (fun r => { r with groupIdx := some g, status := Status.downloadingImages })
        (fun r => rfl) hj]
      rfl
    · rw [hself]
      have h3 := findRequest_updateRequest_self
        ({ db with groups :=
            db.groups ++ [⟨reservoir, req.startDate, req.endDate⟩] } : DB)
        reqId
        (fun r => { r with groupIdx := some g, status := Status.downloadingImages })
        (fun r => rfl)
      have h2 : findRequest
          ({ db with groups :=
              db.groups ++ [⟨reservoir, req.startDate, req.endDate⟩] } : DB)
          reqId = some req := hfind
      rw [h2] at h3
      exact (congrArg (Option.map fun r => { r with status := st }) h3).trans rfl
  | some gap =>
    simp only [hgap]
    cases hdl : (download_new_images env reservoir).2 with
    | some e =>
      simp only [hdl, failRequest]
      have h3 := findRequest_updateRequest_self
        ({ db with groups :=
            db.groups ++ [⟨reservoir, req.startDate, req.endDate⟩] } : DB)
        reqId
        (fun r => { r with groupIdx := some g, status := Status.downloadingImages })
        (fun r => rfl)
      have h2 : findRequest
          ({ db with groups :=
              db.groups ++ [⟨reservoir, req.startDate, req.endDate⟩] } : DB)
          reqId = some req := hfind
      rw [h2] at h3
      refine ⟨⟨[⟨reservoir, req.startDate, req.endDate⟩], rfl⟩,
        ⟨(download_new_images env reservoir).1, rfl⟩, ⟨[], by simp, by simp⟩, ?_,
        ⟨req.id, Status.failed, req.startDate, req.endDate, req.modelIds, some g⟩,
        ?_, rfl, rfl, rfl, rfl, Or.inr ⟨e, by trivial, rfl⟩⟩
      · intro j hj
        rw [findRequest_updateRequest_ne _ reqId j
          (fun r => { r with status := Status.failed }) (fun r => rfl) hj]
        exact findRequest_updateRequest_ne
          ({ db with groups :=
              db.groups ++ [⟨reservoir, req.startDate, req.endDate⟩] } : DB)
          reqId j
          (fun r => { r with groupIdx := some g, status := Status.downloadingImages })
          (fun r => rfl) hj
      · rw [findRequest_updateRequest_self _ reqId
          (fun r => { r with status := Status.failed }) (fun r => rfl)]
        exact (congrArg (Option.map fun r => { r with status := Status.failed })
          h3).trans rfl
    | none =>
      simp only [hdl]
      obtain ⟨hg, hi, hm, ⟨as, han, hdates⟩, hne, st, hself, hdisj⟩ :=
        process_request_infer_spec env
          { requests :=
              (updateRequest
                { db with groups :=
                    db.groups ++ [⟨reservoir, req.startDate, req.endDate⟩] }
                reqId fun r =>
                  { r with groupIdx := some g, status := Status.downloadingImages }).requests,
            mlModels := db.mlModels,
            images := db.images ++ (download_new_images env reservoir).1,
            groups := db.groups ++ [⟨reservoir, req.startDate, req.endDate⟩],
            analyses := db.analyses }
          reqId req models reservoir g
      refine ⟨⟨[⟨reservoir, req.startDate, req.endDate⟩], hg⟩,
        ⟨(download_new_images env reservoir).1, hi⟩,
        ⟨as, han, hdates⟩, ?_, ⟨req.id, st, req.startDate, req.endDate,
          req.modelIds, some g⟩, ?_, rfl, rfl, rfl, rfl, hdisj⟩
      · intro j hj
        rw [hne j hj]
        exact findRequest_updateRequest_ne
          ({ db with groups :=
              db.groups ++ [⟨reservoir, req.startDate, req.endDate⟩] } : DB)
          reqId j
          (fun r => { r with groupIdx := some g, status := Status.downloadingImages })
          (fun r => rfl) hj
      · rw [hself]
        have h3 := findRequest_updateRequest_self
          ({ db with groups :=
              db.groups ++ [⟨reservoir, req.startDate, req.endDate⟩] } : DB)
          reqId
          (fun r => { r with groupIdx := some g, status := Status.downloadingImages })
          (fun r => rfl)
        have h2 : findRequest
            ({ db with groups :=
                db.groups ++ [⟨reservoir, req.startDate, req.endDate⟩] } : DB)
            reqId = some req := hfind
        rw [h2] at h3
        exact (congrArg (Option.map fun r => { r with status := st }) h3).trans rfl

/-- Effect of one full `process_request` run on a request that exists:
groups/images/analyses only grow, appended analyses date within the
requested range, other requests are untouched, and the request keeps its
core fields and ends `COMPLETED` exactly when no error is re-raised,
`FAILED` otherwise. -/
theorem process_request_spec (env : PipeEnv) (db : DB) (reqId : ℕ)
    (req : RequestRec) (hfind : findRequest db reqId = some req) :
    (∃ gs, (process_request env db reqId).1.groups = db.groups ++ gs) ∧
    (∃ newImgs, (process_request env db reqId).1.images = db.images ++ newImgs) ∧
    (∃ as, (process_request env db reqId).1.analyses = db.analyses ++ as ∧
      ∀ a ∈ as, req.startDate ≤ a.analysisDate ∧ a.analysisDate ≤ req.endDate) ∧
    (∀ j, j ≠ reqId →
      findRequest (process_request env db reqId).1 j = findRequest db j) ∧
    ∃ r, findRequest (process_request env db reqId).1 reqId = some r ∧
      r.id = req.id ∧ r.startDate = req.startDate ∧ r.endDate = req.endDate ∧
      r.modelIds = req.modelIds ∧
      (((process_request env db reqId).2 = none ∧ r.status = Status.completed) ∨
       (∃ e, (process_request env db reqId).2 = some e ∧
          r.status = Status.failed)) := by
  simp only [process_request, hfind]
  by_cases h1 : 1 < (distinctReservoirs
      (db.mlModels.filter fun m => req.modelIds.contains m.id)).length
  · simp only [if_pos h1, failRequest]
    refine ⟨⟨[], by simp⟩, ⟨[], by simp⟩, ⟨[], by simp, by simp⟩, ?_,
      ⟨{ req with status := Status.failed }, ?_, rfl, rfl, rfl, rfl,
        Or.inr ⟨.multipleReservoirs, by trivial, rfl⟩⟩⟩
    · intro j hj
      exact findRequest_updateRequest_ne db reqId j
        (fun r => { r with status := Status.failed }) (fun r => rfl) hj
    · rw [findRequest_updateRequest_self db reqId
        (fun r => { r with status := Status.failed }) (fun r => rfl), hfind]
      rfl
  · simp only [if_neg h1]
    by_cases h2 : duplicateParameters
        (db.mlModels.filter fun m => req.modelIds.contains m.id) ≠ []
    · simp only [if_pos h2, failRequest]
      refine ⟨⟨[], by simp⟩, ⟨[], by simp⟩, ⟨[], by simp, by simp⟩, ?_,
        ⟨{ req with status := Status.failed }, ?_, rfl, rfl, rfl, rfl,
          Or.inr ⟨.duplicateParameters (duplicateParameters
            (db.mlModels.filter fun m => req.modelIds.contains m.id)),
            by trivial, rfl⟩⟩⟩
      · intro j hj
        exact findRequest_updateRequest_ne db reqId j
          (fun r => { r with status := Status.failed }) (fun r => rfl) hj
      · rw [findRequest_updateRequest_self db reqId
          (fun r => { r with status := Status.failed }) (fun r => rfl), hfind]
        rfl
    · simp only [if_neg h2]
      cases hm : (db.mlModels.filter fun m => req.modelIds.contains m.id).head? with
      | none =>
        simp only [hm, failRequest]
        refine ⟨⟨[], by simp⟩, ⟨[], by simp⟩, ⟨[], by simp, by simp⟩, ?_,
          ⟨{ req with status := Status.failed }, ?_, rfl, rfl, rfl, rfl,
            Or.inr ⟨.noModels, by trivial, rfl⟩⟩⟩
        · intro j hj
          exact findRequest_updateRequest_ne db reqId j
            (fun r => { r with status := Status.failed }) (fun r => rfl) hj
        · rw [findRequest_updateRequest_self db reqId
            (fun r => { r with status := Status.failed }) (fun r => rfl), hfind]
          rfl
      | some m0 =>
        simp only [hm]
        exact process_request_acquire_spec env db reqId req
          (db.mlModels.filter fun m => req.modelIds.contains m.id)
          m0.reservoir db.groups.length hfind

/-- A missing request raises before the `try`, leaving the store
untouched. -/
theorem process_request_none (env : PipeEnv) (db : DB) (reqId : ℕ)
    (h : findRequest db reqId = none) :
    process_request env db reqId = (db, some .requestNotFound) := by
  simp [process_request, h]

/-- `process_request` never touches any other request's record. -/
theorem process_request_preserves_ne (env : PipeEnv) (db : DB) (i j : ℕ)
    (hne : j ≠ i) :
    findRequest (process_request env db i).1 j = findRequest db j := by
  cases hf : findRequest db i with
  | none => rw [process_request_none env db i hf]
  | some req => exact (process_request_spec env db i req hf).2.2.2.1 j hne

/-! ## Lemmas about the export-task poll loop -/

/-- A poll pass that reaches a `FAILED`/`CANCELLED` task (every task
before it reporting `COMPLETED`) aborts naming that task and its state. -/
theorem poll_once_terminal (status : ℕ → Option TaskState) :
    ∀ (pre : List ℕ) (t : ℕ) (post : List ℕ) (st : TaskState),
      (∀ u ∈ pre, status u = some TaskState.completed) →
      status t = some st → st = .failed ∨ st = .cancelled →
      poll_once status (pre ++ t :: post) = .abortTerminal t st := by
  intro pre
  induction pre with
  | nil =>
    intro t post st _ ht hst
    rcases hst with rfl | rfl <;> simp [poll_once, ht]
  | cons u pre ih =>
    intro t post st hpre ht hst
    have hu := hpre u (List.mem_cons_self u pre)
    simp [poll_once, hu]
    exact ih t post st (fun x hx => hpre x (List.mem_cons_of_mem u hx)) ht hst

/-- If every poll pass comes back pending, the wait loop times out. -/
theorem wait_loop_pending (statusAt : ℕ → ℕ → Option TaskState)
    (taskIds : List ℕ) (maxWait ci : ℕ)
    (h : ∀ n, poll_once (statusAt n) taskIds = .pending) :
    ∀ (fuel n : ℕ),
      wait_loop statusAt taskIds maxWait ci n fuel = .error .exportTimeout := by
  intro fuel
  induction fuel with
  | zero => intro n; rfl
  | succ fuel ih =>
    intro n
    simp only [wait_loop]
    by_cases hto : maxWait < n * ci
    · rw [if_pos hto]
    · rw [if_neg hto]
      simp only [h n]
      exact ih (n + 1)

/-! ## Claim C4 (terminal export job aborts the whole batch) -/

/-- C4: when polling observes a job in terminal state `FAILED` or
`CANCELLED` (every job before it in the list already `COMPLETED`), the
whole wait aborts at once with the exception naming that job id and its
state; a wait whose passes stay pending forever raises the timeout error
instead; and when the wait raises, `download_new_images` creates zero
image rows and re-raises the error. -/
theorem claim_C4 :
    (∀ (statusAt : ℕ → ℕ → Option TaskState) (pre : List ℕ) (t : ℕ)
        (post : List ℕ) (st : TaskState) (maxWait ci : ℕ),
      (∀ u ∈ pre, statusAt 0 u = some TaskState.completed) →
      statusAt 0 t = some st → st = .failed ∨ st = .cancelled →
      wait_for_export_tasks statusAt (pre ++ t :: post) maxWait ci =
        .error (.exportTask t st)) ∧
    (∀ (statusAt : ℕ → ℕ → Option TaskState) (taskIds : List ℕ)
        (maxWait ci : ℕ),
      (∀ n, poll_once (statusAt n) taskIds = .pending) →
      wait_for_export_tasks statusAt taskIds maxWait ci =
        .error .exportTimeout) ∧
    (∀ (env : PipeEnv) (reservoir : ℕ) (e : PipeErr),
      wait_for_export_tasks env.statusAt env.tasks 6000000 30 = .error e →
      download_new_images env reservoir = ([], some e)) := by
  refine ⟨?_, ?_, ?_⟩
  · intro statusAt pre t post st maxWait ci hpre ht hst
    rw [wait_for_export_tasks,
      show maxWait / ci + 2 = (maxWait / ci + 1) + 1 from rfl]
    simp only [wait_loop]
    rw [if_neg (by simp)]
    simp only [poll_once_terminal (statusAt 0) pre t post st hpre ht hst]
  · intro statusAt taskIds maxWait ci h
    exact wait_loop_pending statusAt taskIds maxWait ci h _ 0
  · intro env reservoir e h
    simp [download_new_images, h]

/-- C4, witness: among tasks `1` (completed) and `2` (failed), the wait
aborts with the exception naming task `2` and state `FAILED`, the
download step creates zero rows, and an all-pending status report times
out. -/
theorem claim_C4_witness :
    wait_for_export_tasks statusSecondFailed [1, 2] 6000000 30 =
      .error (.exportTask 2 .failed) ∧
    download_new_images envFailedTask 5 = ([], some (.exportTask 2 .failed)) ∧
    wait_for_export_tasks (fun _ _ => some .running) [1] 0 30 =
      .error .exportTimeout := by
  have h1 := claim_C4.1 statusSecondFailed [1] 2 [] .failed 6000000 30
    (by decide) (by decide) (Or.inl rfl)
  exact ⟨h1, claim_C4.2.2 envFailedTask 5 _ h1,
    claim_C4.2.1 (fun _ _ => some .running) [1] 0 30 (fun _ => rfl)⟩

/-! ## Claim C1 (per-image inference errors) -/

/-- C1, counterexample: with two cached in-range images where inference
on the first (date 1) raises, the error propagates out of the image
loop, the request ends `FAILED`, and no analysis is created — the second
image (date 2) is never processed, refuting "processing continues with
the next image". -/
theorem claim_C1_cex :
    (process_request envFailFirstImage dbTwoImages 0).2 =
      some (.imageProcessing 1) ∧
    statusOf (process_request envFailFirstImage dbTwoImages 0).1 0 =
      some Status.failed ∧
    (process_request envFailFirstImage dbTwoImages 0).1.analyses = [] := by
  exact ⟨by decide, by decide, by decide⟩

/-- C1, amended: the image loop catches and logs a per-image inference
error but then re-raises it: the loop stops at the first failing image
(rows exist only for the clean prefix, none for later images), and the
re-raised error makes the whole request end `FAILED`. -/
theorem claim_C1 :
    (∀ (env : PipeEnv) (m g : ℕ) (pre : List SatImage) (img : SatImage)
        (post : List SatImage),
      (∀ i ∈ pre, env.procFails m i = false ∧ env.mapFails m i = false) →
      env.procFails m img = true →
      process_model env m g (pre ++ img :: post) =
        (pre.map fun i => ⟨g, i.imageDate, i.cloudPercentage⟩,
         some (.imageProcessing img.imageDate))) ∧
    (∀ (env : PipeEnv) (db : DB) (reqId : ℕ) (d : ℤ),
      (process_request env db reqId).2 = some (.imageProcessing d) →
      statusOf (process_request env db reqId).1 reqId = some Status.failed) := by
  constructor
  · exact fun env m g => process_model_stops env m g
  · intro env db reqId d h
    cases hf : findRequest db reqId with
    | none =>
      rw [process_request_none env db reqId hf] at h
      simp at h
    | some req =>
      obtain ⟨-, -, -, -, r, hfr, -, -, -, -, hdisj⟩ :=
        process_request_spec env db reqId req hf
      rcases hdisj with ⟨h2, -⟩ | ⟨e, -, hst⟩
      · rw [h2] at h
        cases h
      · simp [statusOf, hfr, hst]

/-- C1, witness: the amended theorem applied to the two-image scenario:
the failing first image flips the request to `FAILED`. -/
theorem claim_C1_witness :
    (process_request envFailFirstImage dbTwoImages 0).2 =
      some (.imageProcessing 1) ∧
    statusOf (process_request envFailFirstImage dbTwoImages 0).1 0 =
      some Status.failed :=
  ⟨by decide, claim_C1.2 envFailFirstImage dbTwoImages 0 1 (by decide)⟩

/-! ## Claim C5 (download-gap computation) -/

/-- C5: the download gap is the full `[start, end]` when nothing is
cached, `[last + 1, end]` when the last cached date precedes the end,
and absent when the last cached date reaches the end; in the first two
cases a degenerate gap (start = end) is widened by exactly one day. -/
theorem claim_C5 : ∀ s e : ℤ,
    (calculate_download_period none s e =
      if s = e then some (s, e + 1) else some (s, e)) ∧
    (∀ l : ℤ, l < e → calculate_download_period (some l) s e =
      if l + 1 = e then some (l + 1, e + 1) else some (l + 1, e)) ∧
    (∀ l : ℤ, e ≤ l → calculate_download_period (some l) s e = none) := by
  intro s e
  refine ⟨?_, ?_, ?_⟩
  · by_cases h : s = e <;> simp [calculate_download_period, h]
  · intro l hl
    simp [calculate_download_period, hl]
  · intro l hl
    simp [calculate_download_period, not_lt.mpr hl]

/-- C5, witness: an empty cache over the degenerate range `[3, 3]`
widens to `[3, 4]`; a cache ending at `2` against end `3` gives the
widened `[3, 4]`; a cache already reaching the end gives no gap. -/
theorem claim_C5_witness :
    calculate_download_period none 3 3 = some (3, 4) ∧
    calculate_download_period (some 2) 0 3 = some (3, 4) ∧
    calculate_download_period (some 3) 0 3 = none :=
  ⟨((claim_C5 3 3).1).trans (by decide),
   ((claim_C5 0 3).2.1 2 (by decide)).trans (by decide),
   (claim_C5 0 3).2.2 3 (by decide)⟩

/-! ## Claim C6 (failure recording on the request) -/

/-- C6, counterexample: two runs that fail with different triggering
errors (one spans two reservoirs, the other duplicates a parameter)
leave byte-identical request records — the `AnalysisRequest` row has no
error field, so the triggering error is not recorded on it. -/
theorem claim_C6_cex :
    (process_request envBasic dbTwoReservoirs 0).2 ≠
      (process_request envBasic dbDupParameter 0).2 ∧
    findRequest (process_request envBasic dbTwoReservoirs 0).1 0 =
      findRequest (process_request envBasic dbDupParameter 0).1 0 ∧
    statusOf (process_request envBasic dbTwoReservoirs 0).1 0 =
      some Status.failed := by
  exact ⟨by decide, by decide, by decide⟩

/-- C6, amended: on any re-raised exception the request transitions to
`FAILED`; the record keeps its core fields and carries no error
information (the status change is the only failure signal on it); and
partial `AnalysisGroup`/`Analysis` rows created before the failure are
kept, not rolled back. -/
theorem claim_C6 : ∀ (env : PipeEnv) (db : DB) (reqId : ℕ) (req : RequestRec)
    (e : PipeErr),
    findRequest db reqId = some req →
    (process_request env db reqId).2 = some e →
    statusOf (process_request env db reqId).1 reqId = some Status.failed ∧
    (∃ gs, (process_request env db reqId).1.groups = db.groups ++ gs) ∧
    (∃ as, (process_request env db reqId).1.analyses = db.analyses ++ as) ∧
    ∃ r, findRequest (process_request env db reqId).1 reqId = some r ∧
      r.id = req.id ∧ r.startDate = req.startDate ∧ r.endDate = req.endDate ∧
      r.modelIds = req.modelIds ∧ r.status = Status.failed := by
  intro env db reqId req e hfind herr
  obtain ⟨hgs, -, ⟨as, han, -⟩, -, r, hfr, hid, hs, he, hmid, hdisj⟩ :=
    process_request_spec env db reqId req hfind
  rcases hdisj with ⟨h2, -⟩ | ⟨e2, -, hst⟩
  · rw [h2] at herr
    cases herr
  · exact ⟨by simp [statusOf, hfr, hst], hgs, ⟨as, han⟩,
      r, hfr, hid, hs, he, hmid, hst⟩

/-- C6, witness: the amended theorem applied to the two-reservoir
validation failure. -/
theorem claim_C6_witness :
    statusOf (process_request envBasic dbTwoReservoirs 0).1 0 =
      some Status.failed ∧
    (∃ gs, (process_request envBasic dbTwoReservoirs 0).1.groups =
      dbTwoReservoirs.groups ++ gs) :=
  ⟨(claim_C6 envBasic dbTwoReservoirs 0 reqTwoModels .multipleReservoirs
      (by decide) (by decide)).1,
   (claim_C6 envBasic dbTwoReservoirs 0 reqTwoModels .multipleReservoirs
      (by decide) (by decide)).2.1⟩

/-! ## Claim C9 (analyses stay inside the requested range) -/

/-- C9: every `Analysis` row a successful execution creates has its
date inside the requested `[start, end]` — the inference loop runs over
the re-queried in-range images only, so an image cached one day past the
end by the widened degenerate gap is never analyzed. -/
theorem claim_C9 : ∀ (env : PipeEnv) (db : DB) (reqId : ℕ) (req : RequestRec),
    findRequest db reqId = some req →
    (process_request env db reqId).2 = none →
    ∃ as, (process_request env db reqId).1.analyses = db.analyses ++ as ∧
      ∀ a ∈ as, req.startDate ≤ a.analysisDate ∧ a.analysisDate ≤ req.endDate := by
  intro env db reqId req hfind _
  exact (process_request_spec env db reqId req hfind).2.2.1

/-- C9, witness: the degenerate request `[5, 5]` downloads files dated
`5` and `6` (the widened gap), caches both, completes, and every created
analysis dates within `[5, 5]`. -/
theorem claim_C9_witness :
    (process_request envExtraDay dbDegenerateGap 0).2 = none ∧
    (process_request envExtraDay dbDegenerateGap 0).1.images.map
      (·.imageDate) = [5, 6] ∧
    (∃ as, (process_request envExtraDay dbDegenerateGap 0).1.analyses =
        dbDegenerateGap.analyses ++ as ∧
      ∀ a ∈ as, reqDegenerate.startDate ≤ a.analysisDate ∧
        a.analysisDate ≤ reqDegenerate.endDate) :=
  ⟨by decide, by decide,
   claim_C9 envExtraDay dbDegenerateGap 0 reqDegenerate (by decide) (by decide)⟩

/-! ## Claim C10 (a failing request stops the scheduler tick) -/

/-- C10: `process_request` re-raises after marking a request `FAILED`
and the scheduler loop has no handler, so when the first queued request
of a tick fails, the tick ends with that error and every remaining
queued request is still `QUEUED`, untouched until a later tick. -/
theorem claim_C10 : ∀ (env : PipeEnv) (db : DB) (i : ℕ) (rest : List ℕ)
    (db1 : DB) (e : PipeErr),
    (db.requests.map (·.id)).Nodup →
    queuedIds db = i :: rest →
    process_request env db i = (db1, some e) →
    check_for_new_requests env db = (db1, some e) ∧
    ∀ j ∈ rest, statusOf db1 j = some Status.queued := by
  intro env db i rest db1 e hnd hq hpr
  refine ⟨?_, ?_⟩
  · simp only [check_for_new_requests, hq, run_requests, hpr]
  · intro j hj
    have hjq : j ∈ queuedIds db := by
      rw [hq]
      exact List.mem_cons_of_mem i hj
    obtain ⟨r, hrmem, hrid⟩ : ∃ r, (r ∈ db.requests ∧ r.status = Status.queued)
        ∧ r.id = j := by
      simpa [queuedIds, List.mem_map, List.mem_filter] using hjq
    have hndq : (queuedIds db).Nodup := by
      have hsub : ((db.requests.filter fun r =>
          r.status = Status.queued).map (·.id)).Sublist (db.requests.map (·.id)) :=
        (List.filter_sublist db.requests).map (·.id)
      exact (hnd.sublist hsub : _)
    have hij : i ∉ rest := by
      rw [hq] at hndq
      exact (List.nodup_cons.mp hndq).1
    have hji : j ≠ i := fun h => hij (h ▸ hj)
    have hpres : findRequest db1 j = findRequest db j := by
      have hp := process_request_preserves_ne env db i j hji
      rw [hpr] at hp
      exact hp
    rw [statusOf, hpres, ← hrid, findRequest_of_mem_nodup db r hnd hrmem.1]
    simp [hrmem.2]

/-- C10, witness: two queued requests where the first fails validation:
the tick ends with that error and the second request is still queued. -/
theorem claim_C10_witness :
    check_for_new_requests envBasic dbTwoQueued =
      ((process_request envBasic dbTwoQueued 0).1,
        some PipeErr.multipleReservoirs) ∧
    statusOf (process_request envBasic dbTwoQueued 0).1 1 =
      some Status.queued := by
  have h := claim_C10 envBasic dbTwoQueued 0 [1]
    (process_request envBasic dbTwoQueued 0).1 PipeErr.multipleReservoirs
    (by decide) (by decide) (by decide)
  exact ⟨h.1, h.2 1 (by decide)⟩

/-! ## Claim C3 (validation failures precede any state transition) -/

/-- Two distinct models sharing a (reservoir, parameter) pair force the
duplicate-parameter check of `process_request` to fire. -/
theorem duplicateParameters_of_pair (models : List MLModel)
    (m1 m2 : MLModel) (hm1 : m1 ∈ models) (hm2 : m2 ∈ models) (hne : m1 ≠ m2)
    (hpar : m1.parameter = m2.parameter) :
    duplicateParameters models ≠ [] := by
  have h2c : 1 < (models.map (·.parameter)).count m1.parameter := by
    obtain ⟨l1, l2, rfl⟩ := List.append_of_mem hm1
    have hm2s : m2 ∈ l1 ∨ m2 ∈ l2 := by
      rcases List.mem_append.mp hm2 with h | h
      · exact Or.inl h
      · rcases List.mem_cons.mp h with h | h
        · exact absurd h.symm hne
        · exact Or.inr h
    rw [List.map_append, List.map_cons, List.count_append, List.count_cons_self]
    rcases hm2s with h | h
    · have h0 : 0 < (l1.map (·.parameter)).count m1.parameter :=
        List.count_pos_iff.mpr (hpar ▸ List.mem_map_of_mem (·.parameter) h)
      omega
    · have h0 : 0 < (l2.map (·.parameter)).count m1.parameter :=
        List.count_pos_iff.mpr (hpar ▸ List.mem_map_of_mem (·.parameter) h)
      omega
  have hmem : m1.parameter ∈ duplicateParameters models := by
    simp only [duplicateParameters, List.mem_filter, List.mem_dedup]
    exact ⟨List.mem_map_of_mem (·.parameter) hm1, by simpa using h2c⟩
  exact List.ne_nil_of_mem hmem

/-- C3: a request whose model set spans more than one reservoir or
contains a duplicate (reservoir, parameter) pair fails validation before
any state transition: the run's only effect is flipping the status from
`QUEUED` straight to `FAILED` — no `AnalysisGroup`, no `Analysis`, no
image row is created. -/
theorem claim_C3 : ∀ (env : PipeEnv) (db : DB) (reqId : ℕ) (req : RequestRec),
    findRequest db reqId = some req →
    req.status = Status.queued →
    (1 < (distinctReservoirs
        (db.mlModels.filter fun m => req.modelIds.contains m.id)).length ∨
      ∃ m1 m2, m1 ∈ (db.mlModels.filter fun m => req.modelIds.contains m.id) ∧
        m2 ∈ (db.mlModels.filter fun m => req.modelIds.contains m.id) ∧
        m1 ≠ m2 ∧ m1.reservoir = m2.reservoir ∧ m1.parameter = m2.parameter) →
    ∃ e, process_request env db reqId =
        (updateRequest db reqId fun r => { r with status := Status.failed },
         some e) ∧
      (e = PipeErr.multipleReservoirs ∨
        e = PipeErr.duplicateParameters (duplicateParameters
          (db.mlModels.filter fun m => req.modelIds.contains m.id))) ∧
      statusOf (process_request env db reqId).1 reqId = some Status.failed ∧
      (process_request env db reqId).1.groups = db.groups ∧
      (process_request env db reqId).1.analyses = db.analyses ∧
      (process_request env db reqId).1.images = db.images := by
  intro env db reqId req hfind hq hbad
  have hstat : statusOf (updateRequest db reqId
      fun r => { r with status := Status.failed }) reqId = some Status.failed := by
    rw [statusOf, findRequest_updateRequest_self db reqId
      (fun r => { r with status := Status.failed }) (fun r => rfl), hfind]
    rfl
  by_cases h1 : 1 < (distinctReservoirs
      (db.mlModels.filter fun m => req.modelIds.contains m.id)).length
  · have hres : process_request env db reqId =
        (updateRequest db reqId fun r => { r with status := Status.failed },
         some PipeErr.multipleReservoirs) := by
      simp only [process_request, hfind, if_pos h1, failRequest]
    exact ⟨.multipleReservoirs, hres, Or.inl rfl, by rw [hres]; exact hstat,
      by rw [hres]; rfl, by rw [hres]; rfl, by rw [hres]; rfl⟩
  · have h2 : duplicateParameters
        (db.mlModels.filter fun m => req.modelIds.contains m.id) ≠ [] := by
      rcases hbad with h | ⟨m1, m2, hm1, hm2, hne, -, hpar⟩
      · exact absurd h h1
      · exact duplicateParameters_of_pair _ m1 m2 hm1 hm2 hne hpar
    have hres : process_request env db reqId =
        (updateRequest db reqId fun r => { r with status := Status.failed },
         some (PipeErr.duplicateParameters (duplicateParameters
          (db.mlModels.filter fun m => req.modelIds.contains m.id)))) := by
      simp only [process_request, hfind, if_neg h1, if_pos h2, failRequest]
    exact ⟨_, hres, Or.inr rfl, by rw [hres]; exact hstat,
      by rw [hres]; rfl, by rw [hres]; rfl, by rw [hres]; rfl⟩

/-- C3, witness: the two-reservoir request fails its validation from
`QUEUED` with no group or analysis created. -/
theorem claim_C3_witness :
    process_request envBasic dbTwoReservoirs 0 =
      (updateRequest dbTwoReservoirs 0 fun r => { r with status := Status.failed },
       some PipeErr.multipleReservoirs) ∧
    (process_request envBasic dbTwoReservoirs 0).1.groups = [] ∧
    (process_request envBasic dbTwoReservoirs 0).1.analyses = [] := by
  obtain ⟨e, heq, hdisj, -, -, -, -⟩ :=
    claim_C3 envBasic dbTwoReservoirs 0 reqTwoModels (by decide) (by decide)
      (Or.inl (by decide))
  rcases hdisj with rfl | rfl
  · exact ⟨heq, by decide, by decide⟩
  · exact absurd heq (by decide)

end WaterQuality
